import Mathlib

/-!
Verification development for the `celeri` fault-network block-labeling core
(`src/celeri.py`).  The numeric functions of the source are shallowly embedded
over `ℚ` (exact rationals standing for the source's floating-point values);
numpy arrays become Lean lists or `Fin n → ℚ` vectors; the in-place dataframe
updates of the source are modelled by pure functions returning the updated
copy, mirroring the `copy.deepcopy` / `DataFrame.copy` calls the source itself
performs before writing.
-/

namespace Celeri

/-! ### `wrap2360` (src/celeri.py lines 204-206)

    def wrap2360(lon):
        lon[np.where(lon < 0.0)] += 360.0
        return lon

The source adds 360 once to every strictly negative entry and leaves the
remaining entries unchanged.  Elementwise embedding: -/

def wrap2360 (lon : ℚ) : ℚ :=
  if lon < 0 then lon + 360 else lon

/-! ### `process_segment` midpoint longitude (src/celeri.py lines 356-365)

    sep = segment.lon2 - segment.lon1
    periodic_lon_separation = np.where(
        sep > 180, sep - 360, np.where(sep < -180, sep + 360, sep)
    )
    segment["mid_lon_plate_carree"] = (
        segment.lon1.values + periodic_lon_separation / 2.0
    )
-/

def periodic_lon_separation (lon1 lon2 : ℚ) : ℚ :=
  if lon2 - lon1 > 180 then lon2 - lon1 - 360
  else if lon2 - lon1 < -180 then lon2 - lon1 + 360
  else lon2 - lon1

def mid_lon_plate_carree (lon1 lon2 : ℚ) : ℚ :=
  lon1 + periodic_lon_separation lon1 lon2 / 2

/-! ### `polygon_area` (src/celeri.py lines 388-392)

    def polygon_area(x, y):
        return 0.5 * np.abs(np.dot(x, np.roll(y, 1)) - np.dot(y, np.roll(x, 1)))

A length-`n` numpy array is embedded as a vector `Fin n → ℚ`.  `np.roll(v, 1)`
shifts the entries one slot to the right with wraparound:
`np.roll(v, 1)[i] = v[(i - 1) mod n]`, which is exactly subtraction in `Fin n`. -/

def npRoll1 {n : ℕ} [NeZero n] (v : Fin n → ℚ) : Fin n → ℚ :=
  fun i => v (i - 1)

def npDot {n : ℕ} (v w : Fin n → ℚ) : ℚ :=
  ∑ i : Fin n, v i * w i

/-- The signed shoelace sum `np.dot(x, np.roll(y, 1)) - np.dot(y, np.roll(x, 1))`. -/
def shoelace {n : ℕ} [NeZero n] (x y : Fin n → ℚ) : ℚ :=
  npDot x (npRoll1 y) - npDot y (npRoll1 x)

def polygon_area {n : ℕ} [NeZero n] (x y : Fin n → ℚ) : ℚ :=
  (1 / 2) * |shoelace x y|

/-- The signed shoelace area `shoelace x y / 2`;
`polygon_area` is its absolute value. -/
def signed_shoelace_area {n : ℕ} [NeZero n] (x y : Fin n → ℚ) : ℚ :=
  shoelace x y / 2

/-! ### Segment table rows

One row of the segment dataframe, with the columns the embedded functions
read or write.  `other` stands for all the remaining columns of the table,
which none of the embedded functions touch. -/

structure Segment where
  lon1 : ℚ
  lat1 : ℚ
  lon2 : ℚ
  lat2 : ℚ
  x1 : ℚ
  y1 : ℚ
  z1 : ℚ
  x2 : ℚ
  y2 : ℚ
  z2 : ℚ
  locking_depth : ℚ
  locking_depth_flag : ℤ
  other : ℚ
  deriving DecidableEq, Inhabited

/-! ### `order_endpoints_sphere` (src/celeri.py lines 269-290)

The source deep-copies the table, computes `np.cross(endpoints1, endpoints2)`
of the Cartesian endpoint coordinates per row, and for each row whose cross
product has negative z component (`x1*y2 - y1*x2 < 0`) writes the input row's
`lon2, lat2` into the copy's `lon1, lat1` and vice versa; no other column of
the copy is written and the input table is never written (the embedding is a
pure function returning the copy, which is exactly what the source returns). -/

def endpoint_cross_z (s : Segment) : ℚ :=
  s.x1 * s.y2 - s.y1 * s.x2

def order_endpoint_row (s : Segment) : Segment :=
  if endpoint_cross_z s < 0 then
    { s with lon1 := s.lon2, lat1 := s.lat2, lon2 := s.lon1, lat2 := s.lat1 }
  else s

def order_endpoints_sphere (segment : List Segment) : List Segment :=
  segment.map order_endpoint_row

/-! ### `locking_depth_manager` (src/celeri.py lines 224-246)

The source deep-copies the table, then successively overwrites
`locking_depth` with `command.locking_depth_flagK` on the rows whose
`locking_depth_flag` equals `K`, for `K = 2, 3, 4, 5`; finally, if
`command.locking_depth_override_flag == "yes"`, it overwrites every row's
`locking_depth` with `command.locking_depth_override_value`.  Each row has a
single flag value, so the four flag updates act on disjoint row sets and the
embedding applies them sequentially per row. -/

structure Command where
  locking_depth_flag2 : ℚ
  locking_depth_flag3 : ℚ
  locking_depth_flag4 : ℚ
  locking_depth_flag5 : ℚ
  locking_depth_override_flag : String
  locking_depth_override_value : ℚ
  deriving DecidableEq

def locking_depth_row (command : Command) (s : Segment) : Segment :=
  let s2 := if s.locking_depth_flag = 2 then
    { s with locking_depth := command.locking_depth_flag2 } else s
  let s3 := if s2.locking_depth_flag = 3 then
    { s2 with locking_depth := command.locking_depth_flag3 } else s2
  let s4 := if s3.locking_depth_flag = 4 then
    { s3 with locking_depth := command.locking_depth_flag4 } else s3
  let s5 := if s4.locking_depth_flag = 5 then
    { s4 with locking_depth := command.locking_depth_flag5 } else s4
  if command.locking_depth_override_flag = "yes" then
    { s5 with locking_depth := command.locking_depth_override_value } else s5

def locking_depth_manager (segment : List Segment) (command : Command) :
    List Segment :=
  segment.map (locking_depth_row command)

/-! ### `assign_block_labels` label assignment and diagnostic
(src/celeri.py lines 395-420)

`assign_block_labels` obtains per-segment label pairs from
`celeri_closure.get_segment_labels`, stores them as the `west_labels` /
`east_labels` columns, computes
`np.union1d(np.where(east_labels < 0), np.where(west_labels < 0))` and prints
the "Found unproccessed indices" diagnostic exactly when that union is
nonempty; it raises no exception and assigns the label columns for every
segment regardless. -/

/-- Modelled from the spec: `celeri_closure.get_segment_labels` (module
`celeri_closure` is imported by the source but is not under `src/`).  Per the
spec, every resolved segment side gets a block label and "segments with any
unresolved side propagate 'unresolved' (negative sentinel) rather than an
arbitrary label".  A segment's resolution is `some (west, east)` with
nonnegative block indices, or `none` when a side could not be resolved; the
negative sentinel is `-1`. -/
def get_segment_labels_model (res : List (Option (ℕ × ℕ))) : List (ℤ × ℤ) :=
  res.map (fun o => match o with
    | some (w, e) => ((w : ℤ), (e : ℤ))
    | none => (-1, -1))

/-- `segment["west_labels"] = labels[:, 0]` (src/celeri.py line 411). -/
def west_labels (labels : List (ℤ × ℤ)) : List ℤ :=
  labels.map Prod.fst

/-- `segment["east_labels"] = labels[:, 1]` (src/celeri.py line 412). -/
def east_labels (labels : List (ℤ × ℤ)) : List ℤ :=
  labels.map Prod.snd

/-- `np.union1d(np.where(east_labels < 0)[0], np.where(west_labels < 0)[0])`
(src/celeri.py lines 415-418): the sorted duplicate-free union of the two
index sets, i.e. the increasing list of segment indices whose east or west
label is negative. -/
def unprocessed_indices (labels : List (ℤ × ℤ)) : List ℕ :=
  (List.range labels.length).filter
    (fun i => decide ((labels.getD i (0, 0)).2 < 0 ∨ (labels.getD i (0, 0)).1 < 0))

/-- `if len(unprocessed_indices) > 0: print("Found unproccessed indices")`
(src/celeri.py lines 419-420). -/
def prints_unprocessed_warning (labels : List (ℤ × ℤ)) : Bool :=
  decide (0 < (unprocessed_indices labels).length)

/-! ### `assign_block_labels` block area column (src/celeri.py lines 422-427)

    block["area_plate_carree"] = -1 * np.ones(len(block))
    for i in range(closure.n_polygons()):
        vs = closure.polygons[i].vertices
        block.area_plate_carree.values[i] = celeri.polygon_area(vs[:, 0], vs[:, 1])

The column is initialised to -1 for all `len(block)` rows and the first
`n_polygons` rows are overwritten with the polygon areas (the source's numpy
write requires `n_polygons <= len(block)`). -/

/-- One traced polygon's vertex ring `closure.polygons[i].vertices`: a
nonempty sequence of vertices given by its longitude column `vs[:, 0]` and
latitude column `vs[:, 1]`. -/
def PolyVerts : Type := Σ m : ℕ, (Fin (m + 1) → ℚ) × (Fin (m + 1) → ℚ)

def poly_area (p : PolyVerts) : ℚ :=
  polygon_area p.2.1 p.2.2

def area_plate_carree_column (n_blocks : ℕ) (polys : List PolyVerts) : List ℚ :=
  (List.range n_blocks).map (fun i =>
    if h : i < polys.length then poly_area (polys.get ⟨i, h⟩) else -1)

/-! ### Polygon tracer for a single closed loop
(spec §4.2-§4.3; `celeri_closure.run_block_closure`, called at
src/celeri.py line 408, is imported but not under `src/`)

The canonical well-formed single-closed-loop segment set has `n` segments,
segment `i` joining vertex `i` to vertex `(i+1) % n`.  Its half-edge graph
has two half-edges per segment: `2*i` is the forward half-edge
`i → (i+1) % n` and `2*i + 1` its twin.  Every vertex has exactly two
outgoing half-edges, so the spec's next-edge rule ("the next edge in the
fixed angular order around the destination vertex after the reverse of the
incoming direction") is forced: the continuation of a half-edge is the
unique outgoing half-edge of its destination other than its twin. -/

/-- Modelled from the spec: the §4.3 next-edge rule on the single-loop
half-edge graph.  The forward half-edge `2*i` continues to the forward
half-edge of segment `(i+1) % n`; the backward half-edge `2*i + 1` continues
to the backward half-edge of segment `(i-1) % n`. -/
def nextHE (n e : ℕ) : ℕ :=
  if e % 2 = 0 then 2 * ((e / 2 + 1) % n)
  else 2 * ((e / 2 + (n - 1)) % n) + 1

/-- Modelled from the spec: §4.3 "Continue until the trace returns to the
starting half-edge, producing one closed polygon."  Fuel-bounded walk along
`nextHE` recording the visited half-edges; the fuel (total half-edge count)
makes the recursion well-founded without changing the traced loop. -/
def traceLoop (n start : ℕ) : ℕ → ℕ → List ℕ
  | 0, _ => []
  | fuel + 1, e =>
      e :: (if nextHE n e = start then [] else traceLoop n start fuel (nextHE n e))

def traceFrom (n e : ℕ) : List ℕ :=
  traceLoop n e (2 * n) e

/-- Modelled from the spec: §4.3 "repeatedly pick any unvisited half-edge as
the start of a new polygon"; an already-visited half-edge starts no new
polygon.  The visited set is the union (`join`) of the traced polygons. -/
def closureStep (n : ℕ) (polys : List (List ℕ)) (e : ℕ) : List (List ℕ) :=
  if e ∈ polys.flatten then polys else polys ++ [traceFrom n e]

/-- Modelled from the spec: `celeri_closure.run_block_closure` specialised to
the canonical single-closed-loop segment set with `n` segments — trace a
polygon from each half-edge not yet consumed, in half-edge order. -/
def run_block_closure_model (n : ℕ) : List (List ℕ) :=
  (List.range (2 * n)).foldl (closureStep n) []

def n_polygons_model (n : ℕ) : ℕ :=
  (run_block_closure_model n).length

/-- Modelled from the spec: "exactly one polygon is classified exterior"
(§3 invariants, §4.6), so the interior polygon count is the traced polygon
count minus one. -/
def n_interior_polygons (n : ℕ) : ℕ :=
  n_polygons_model n - 1

/-- Modelled from the spec: §4.3 "set of half-edges that were never assigned
to a polygon (unresolved)". -/
def unresolved_half_edges (n : ℕ) : List ℕ :=
  (List.range (2 * n)).filter
    (fun e => decide (e ∉ (run_block_closure_model n).flatten))

/-! ### `get_fault_slip_rate_partials` (src/celeri.py lines 725-854)

The loop body computes a 3x3 `slip_rate_matrix` for each segment from
trigonometric library calls (`np.cos`, `np.sin`, `np.deg2rad`) and the
pyproj geodesic azimuth (`celeri.GEOID.inv`), then writes it into the
rows `3*i .. 3*i+2` of the operator at the east-label block columns and its
negation at the west-label block columns.  numpy and pyproj are external
collaborators, so the embedding is parametric in those numeric primitives
(record `TrigModel`); every proved property holds for all valuations of
them.  Labels are taken as resolved (nonnegative) block indices, which is
the precondition of the claim (the negative-sentinel case is the concern of
the label-diagnostic stage). -/

structure TrigModel where
  cos : ℚ → ℚ
  sin : ℚ → ℚ
  deg2rad : ℚ → ℚ
  geoid_inv_azimuth : ℚ → ℚ → ℚ → ℚ → ℚ

structure SlipSegment where
  lon1 : ℚ
  lat1 : ℚ
  lon2 : ℚ
  lat2 : ℚ
  dip : ℚ
  mid_x : ℚ
  mid_y : ℚ
  mid_z : ℚ
  mid_lon : ℚ
  mid_lat : ℚ
  west_labels : ℕ
  east_labels : ℕ

/-- src/celeri.py lines 676-687: the linear operator `R` with
`R @ b = vector × b`. -/
def get_cross_partials (vector : Fin 3 → ℚ) : Fin 3 → Fin 3 → ℚ :=
  ![![0, vector 2, -vector 1],
    ![-vector 2, 0, vector 0],
    ![vector 1, -vector 0, 0]]

/-- src/celeri.py lines 690-722: projection of a Cartesian velocity vector to
`(vel_north, vel_east, vel_up)` spherical components at `(lon, lat)`. -/
def cartesian_vector_to_spherical_vector (T : TrigModel)
    (vel_x vel_y vel_z lon lat : ℚ) : ℚ × ℚ × ℚ :=
  let projection_matrix : Fin 3 → Fin 3 → ℚ :=
    ![![-(T.sin (T.deg2rad lat)) * T.cos (T.deg2rad lon),
        -(T.sin (T.deg2rad lat)) * T.sin (T.deg2rad lon),
        T.cos (T.deg2rad lat)],
      ![-(T.sin (T.deg2rad lon)), T.cos (T.deg2rad lon), 0],
      ![-(T.cos (T.deg2rad lat)) * T.cos (T.deg2rad lon),
        -(T.cos (T.deg2rad lat)) * T.sin (T.deg2rad lon),
        -(T.sin (T.deg2rad lat))]]
  let v : Fin 3 → ℚ := ![vel_x, vel_y, vel_z]
  (∑ j, projection_matrix 0 j * v j,
   ∑ j, projection_matrix 1 j * v j,
   ∑ j, projection_matrix 2 j * v j)

/-- src/celeri.py lines 737-846: the per-segment 3x3 slip-rate matrix —
rows are (strike-slip, dip-slip, tensile-slip) partials with respect to the
rotation vector components. -/
def slip_rate_matrix (T : TrigModel) (s : SlipSegment) : Fin 3 → Fin 3 → ℚ :=
  let R := get_cross_partials ![s.mid_x, s.mid_y, s.mid_z]
  let col_x := cartesian_vector_to_spherical_vector T (R 0 0) (R 1 0) (R 2 0)
    s.mid_lon s.mid_lat
  let col_y := cartesian_vector_to_spherical_vector T (R 0 1) (R 1 1) (R 2 1)
    s.mid_lon s.mid_lat
  let col_z := cartesian_vector_to_spherical_vector T (R 0 2) (R 1 2) (R 2 2)
    s.mid_lon s.mid_lat
  let vel_north_to_omega_x := col_x.1
  let vel_east_to_omega_x := col_x.2.1
  let vel_north_to_omega_y := col_y.1
  let vel_east_to_omega_y := col_y.2.1
  let vel_north_to_omega_z := col_z.1
  let vel_east_to_omega_z := col_z.2.1
  let segment_azimuth := T.geoid_inv_azimuth s.lon1 s.lat1 s.lon2 s.lat2
  let unit_x_parallel0 := T.cos (T.deg2rad (90 - segment_azimuth))
  let unit_y_parallel0 := T.sin (T.deg2rad (90 - segment_azimuth))
  let unit_x_perpendicular0 := T.sin (T.deg2rad (segment_azimuth - 90))
  let unit_y_perpendicular0 := T.cos (T.deg2rad (segment_azimuth - 90))
  let unit_x_parallel :=
    if s.lat2 < s.lat1 then -unit_x_parallel0 else unit_x_parallel0
  let unit_y_parallel :=
    if s.lat2 < s.lat1 then -unit_y_parallel0 else unit_y_parallel0
  let unit_x_perpendicular :=
    if s.lat2 < s.lat1 then -unit_x_perpendicular0 else unit_x_perpendicular0
  let unit_y_perpendicular :=
    if s.lat2 < s.lat1 then -unit_y_perpendicular0 else unit_y_perpendicular0
  if s.dip ≠ 90 then
    let scale_factor := 1 / |T.cos (T.deg2rad s.dip)|
    ![![unit_x_parallel * vel_east_to_omega_x + unit_y_parallel * vel_north_to_omega_x,
        unit_x_parallel * vel_east_to_omega_y + unit_y_parallel * vel_north_to_omega_y,
        unit_x_parallel * vel_east_to_omega_z + unit_y_parallel * vel_north_to_omega_z],
      ![scale_factor * (unit_x_perpendicular * vel_east_to_omega_x
          + unit_y_perpendicular * vel_north_to_omega_x),
        scale_factor * (unit_x_perpendicular * vel_east_to_omega_y
          + unit_y_perpendicular * vel_north_to_omega_y),
        scale_factor * (unit_x_perpendicular * vel_east_to_omega_z
          + unit_y_perpendicular * vel_north_to_omega_z)],
      ![0, 0, 0]]
  else
    let scale_factor : ℚ := -1
    ![![unit_x_parallel * vel_east_to_omega_x + unit_y_parallel * vel_north_to_omega_x,
        unit_x_parallel * vel_east_to_omega_y + unit_y_parallel * vel_north_to_omega_y,
        unit_x_parallel * vel_east_to_omega_z + unit_y_parallel * vel_north_to_omega_z],
      ![0, 0, 0],
      ![scale_factor * (unit_x_perpendicular * vel_east_to_omega_x
          + unit_y_perpendicular * vel_north_to_omega_x),
        scale_factor * (unit_x_perpendicular * vel_east_to_omega_y
          + unit_y_perpendicular * vel_north_to_omega_y),
        scale_factor * (unit_x_perpendicular * vel_east_to_omega_z
          + unit_y_perpendicular * vel_north_to_omega_z)]]

/-- Total access into a 3x3 block, `0` outside its bounds. -/
def at3 (B : Fin 3 → Fin 3 → ℚ) (r c : ℕ) : ℚ :=
  if h : r < 3 ∧ c < 3 then B ⟨r, h.1⟩ ⟨c, h.2⟩ else 0

/-- `operator[r0:r0+3, c0:c0+3] = B`, the numpy block write of the source
(lines 848-853), on the function representation of the matrix. -/
def write_block (A : ℕ → ℕ → ℚ) (r0 c0 : ℕ) (B : Fin 3 → Fin 3 → ℚ) :
    ℕ → ℕ → ℚ :=
  fun r c =>
    if r0 ≤ r ∧ r < r0 + 3 ∧ c0 ≤ c ∧ c < c0 + 3 then
      at3 B (r - r0) (c - c0)
    else A r c

/-- One iteration of the source loop (src/celeri.py lines 732-853): write the
slip-rate matrix at the east-label block columns, then its negation at the
west-label block columns, of rows `3*i .. 3*i+2`. -/
def slip_partials_step (T : TrigModel) (segment : ℕ → SlipSegment)
    (A : ℕ → ℕ → ℚ) (i : ℕ) : ℕ → ℕ → ℚ :=
  write_block
    (write_block A (3 * i) (3 * (segment i).east_labels)
      (slip_rate_matrix T (segment i)))
    (3 * i) (3 * (segment i).west_labels)
    (fun a b => -(slip_rate_matrix T (segment i) a b))

/-- src/celeri.py lines 725-854: the operator starts as
`np.zeros((3*n_segments, 3*n_blocks))` (the everywhere-zero function; the
claim concerns the columns `c < 3*n_blocks`) and each segment's loop
iteration writes its two blocks. -/
def get_fault_slip_rate_partials (T : TrigModel) (n_segments : ℕ)
    (segment : ℕ → SlipSegment) : ℕ → ℕ → ℚ :=
  (List.range n_segments).foldl (slip_partials_step T segment) (fun _ _ => 0)

/-- Closed form of one row entry: the west write wins over the east write
(it is executed second), everything else in the row is zero. -/
def slip_partials_entry (T : TrigModel) (segment : ℕ → SlipSegment)
    (i r c : ℕ) : ℚ :=
  if 3 * (segment i).west_labels ≤ c ∧ c < 3 * (segment i).west_labels + 3 then
    at3 (fun a b => -(slip_rate_matrix T (segment i) a b)) (r % 3)
      (c - 3 * (segment i).west_labels)
  else if 3 * (segment i).east_labels ≤ c ∧ c < 3 * (segment i).east_labels + 3 then
    at3 (slip_rate_matrix T (segment i)) (r % 3) (c - 3 * (segment i).east_labels)
  else 0

/-- A concrete segment row whose endpoints are out of order: its endpoint
cross product has z component `0*0 - 1*1 = -1 < 0`. -/
def swappedSegment : Segment :=
  { lon1 := 1, lat1 := 2, lon2 := 3, lat2 := 4
    x1 := 0, y1 := 1, z1 := 0, x2 := 1, y2 := 0, z2 := 0
    locking_depth := 10, locking_depth_flag := 2, other := 7 }

/-- A command row for the witness. -/
def exampleCommand : Command :=
  { locking_depth_flag2 := 20, locking_depth_flag3 := 30
    locking_depth_flag4 := 40, locking_depth_flag5 := 50
    locking_depth_override_flag := "no", locking_depth_override_value := 99 }

/-- The unit-square vertex ring as a polygon record. -/
def unitSquarePoly : PolyVerts :=
  ⟨3, ![0, 1, 1, 0], ![0, 0, 1, 1]⟩

/-- A concrete valuation of the external numeric primitives. -/
def exampleTrig : TrigModel :=
  { cos := fun q => q, sin := fun q => q, deg2rad := fun q => q
    geoid_inv_azimuth := fun _ _ _ _ => 0 }

/-- A concrete segment row separating block 0 (west) from block 1 (east). -/
def exampleSlipSegment : SlipSegment :=
  { lon1 := 0, lat1 := 0, lon2 := 1, lat2 := 1, dip := 90
    mid_x := 1, mid_y := 0, mid_z := 0, mid_lon := 0, mid_lat := 0
    west_labels := 0, east_labels := 1 }

/-- In the additive group `Fin n`, the order-reversing permutation is
`j ↦ -(j + 1)`. -/
lemma fin_rev_eq_neg_add_one {n : ℕ} [NeZero n] (j : Fin n) :
    Fin.rev j = -(j + 1) := by
  have hj := j.isLt
  apply Fin.ext
  rw [Fin.val_rev, Fin.neg_def, Fin.add_def, Fin.val_one']
  simp only [Fin.val_mk]
  rcases Nat.lt_or_ge 1 n with h | h
  · rw [Nat.mod_eq_of_lt h]
    rcases Nat.lt_or_ge (j.val + 1) n with h2 | h2
    · rw [Nat.mod_eq_of_lt h2, Nat.mod_eq_of_lt (by omega)]
    · have h3 : j.val + 1 = n := by omega
      rw [h3]
      simp [Nat.mod_self]
  · have h1 : n = 1 := by omega
    subst h1
    omega

lemma npRoll1_comp_addRight {n : ℕ} [NeZero n] (v : Fin n → ℚ) (k : Fin n) :
    npRoll1 (fun i => v (i + k)) = fun i => npRoll1 v (i + k) := by
  funext i
  simp only [npRoll1]
  congr 1
  abel

/-- The shoelace sum is invariant under a cyclic rotation of both coordinate
vectors. -/
lemma shoelace_rotate {n : ℕ} [NeZero n] (x y : Fin n → ℚ) (k : Fin n) :
    shoelace (fun i => x (i + k)) (fun i => y (i + k)) = shoelace x y := by
  unfold shoelace npDot
  rw [npRoll1_comp_addRight, npRoll1_comp_addRight]
  congr 1
  · exact Fintype.sum_equiv (Equiv.addRight k) _ _ (fun i => rfl)
  · exact Fintype.sum_equiv (Equiv.addRight k) _ _ (fun i => rfl)

/-- The shoelace sum changes sign when the traversal direction of both
coordinate vectors is reversed. -/
lemma shoelace_reverse {n : ℕ} [NeZero n] (x y : Fin n → ℚ) :
    shoelace (fun i => x (Fin.rev i)) (fun i => y (Fin.rev i)) = -shoelace x y := by
  unfold shoelace npDot npRoll1
  have hrev : ∀ i : Fin n, Fin.rev (i - 1) = Fin.rev i + 1 := by
    intro i
    rw [fin_rev_eq_neg_add_one, fin_rev_eq_neg_add_one]
    abel
  have h1 : ∑ i : Fin n, x (Fin.rev i) * y (Fin.rev (i - 1))
      = ∑ i : Fin n, y i * x (i - 1) := by
    calc ∑ i : Fin n, x (Fin.rev i) * y (Fin.rev (i - 1))
        = ∑ i : Fin n, x (Fin.rev i) * y (Fin.rev i + 1) := by
          refine Finset.sum_congr rfl (fun i _ => ?_)
          rw [hrev]
      _ = ∑ j : Fin n, x j * y (j + 1) := by
          refine (Fintype.sum_equiv Fin.revPerm _ _ (fun j => ?_)).symm
          rw [Fin.revPerm_apply, Fin.rev_rev]
      _ = ∑ i : Fin n, y i * x (i - 1) := by
          refine Fintype.sum_equiv (Equiv.addRight (1 : Fin n)) _ _ (fun j => ?_)
          rw [Equiv.coe_addRight, add_sub_cancel_right, mul_comm]
  have h2 : ∑ i : Fin n, y (Fin.rev i) * x (Fin.rev (i - 1))
      = ∑ i : Fin n, x i * y (i - 1) := by
    calc ∑ i : Fin n, y (Fin.rev i) * x (Fin.rev (i - 1))
        = ∑ i : Fin n, y (Fin.rev i) * x (Fin.rev i + 1) := by
          refine Finset.sum_congr rfl (fun i _ => ?_)
          rw [hrev]
      _ = ∑ j : Fin n, y j * x (j + 1) := by
          refine (Fintype.sum_equiv Fin.revPerm _ _ (fun j => ?_)).symm
          rw [Fin.revPerm_apply, Fin.rev_rev]
      _ = ∑ i : Fin n, x i * y (i - 1) := by
          refine Fintype.sum_equiv (Equiv.addRight (1 : Fin n)) _ _ (fun j => ?_)
          rw [Equiv.coe_addRight, add_sub_cancel_right, mul_comm]
  rw [h1, h2]
  ring

/-- C3: `polygon_area` is invariant under every cyclic rotation of the vertex
sequence (rotation by any `k`, both coordinate vectors rotated together) and
under reversing the traversal direction of the vertex sequence. -/
theorem polygon_area_rotation_reversal_invariant {n : ℕ} [NeZero n]
    (x y : Fin n → ℚ) (k : Fin n) :
    polygon_area (fun i => x (i + k)) (fun i => y (i + k)) = polygon_area x y ∧
    polygon_area (fun i => x (Fin.rev i)) (fun i => y (Fin.rev i)) = polygon_area x y := by
  constructor
  · unfold polygon_area
    rw [shoelace_rotate]
  · unfold polygon_area
    rw [shoelace_reverse, abs_neg]

/-- Witness for `polygon_area_rotation_reversal_invariant` on the unit-square
ring, rotated by two positions and reversed. -/
theorem polygon_area_rotation_reversal_invariant_witness :
    polygon_area (fun i => (![0, 1, 1, 0] : Fin 4 → ℚ) (i + 2))
        (fun i => (![0, 0, 1, 1] : Fin 4 → ℚ) (i + 2))
      = polygon_area ![0, 1, 1, 0] ![0, 0, 1, 1] ∧
    polygon_area (fun i => (![0, 1, 1, 0] : Fin 4 → ℚ) (Fin.rev i))
        (fun i => (![0, 0, 1, 1] : Fin 4 → ℚ) (Fin.rev i))
      = polygon_area ![0, 1, 1, 0] ![0, 0, 1, 1] :=
  polygon_area_rotation_reversal_invariant ![0, 1, 1, 0] ![0, 0, 1, 1] 2

/-- C4: on the unit-square vertex ring `(0,0),(1,0),(1,1),(0,1)`,
`polygon_area` returns exactly `1`. -/
theorem polygon_area_unit_square :
    polygon_area ![0, 1, 1, 0] ![0, 0, 1, 1] = 1 := by
  unfold polygon_area shoelace npDot npRoll1
  norm_num [Fin.sum_univ_four]

/-- C5 counterexample: `wrap2360` adds 360 only once and only to strictly
negative entries, so the input 400 (at or above 360) is returned as 400,
which is not in `[0, 360)`.  The claim that *every* input is mapped into
`[0, 360)` is therefore false on the code. -/
theorem wrap2360_counterexample :
    ¬ (0 ≤ wrap2360 400 ∧ wrap2360 400 < 360) := by
  unfold wrap2360
  norm_num

/-- C5 amended: for every input longitude in `[-360, 360)` — which covers both
the `(-180, 180]` and the `[0, 360)` conventions that may be mixed in the
input — `wrap2360` returns a value in `[0, 360)`: negative entries get 360
added once, nonnegative entries are unchanged. -/
theorem wrap2360_in_range (lon : ℚ) (h1 : -360 ≤ lon) (h2 : lon < 360) :
    0 ≤ wrap2360 lon ∧ wrap2360 lon < 360 := by
  unfold wrap2360
  split_ifs with h
  · constructor <;> linarith
  · exact ⟨by linarith, h2⟩

/-- Witness for `wrap2360_in_range` at the concrete input `-90`. -/
theorem wrap2360_in_range_witness :
    (-360 : ℚ) ≤ -90 ∧ (-90 : ℚ) < 360 ∧
      (0 ≤ wrap2360 (-90) ∧ wrap2360 (-90) < 360) :=
  ⟨by decide, by decide, wrap2360_in_range (-90) (by decide) (by decide)⟩

/-- C10: for endpoint longitudes in `[0, 360)`, the plate carrée midpoint
longitude computed by `process_segment` is within 90 degrees (modulo 360) of
each endpoint longitude: the midpoint lies on the short arc between the two
endpoints even when the segment crosses the 0/360 meridian. -/
theorem mid_lon_plate_carree_near_endpoints (lon1 lon2 : ℚ)
    (h1a : 0 ≤ lon1) (h1b : lon1 < 360) (h2a : 0 ≤ lon2) (h2b : lon2 < 360) :
    (∃ k : ℤ, |mid_lon_plate_carree lon1 lon2 - lon1 - 360 * k| ≤ 90) ∧
    (∃ k : ℤ, |mid_lon_plate_carree lon1 lon2 - lon2 - 360 * k| ≤ 90) := by
  unfold mid_lon_plate_carree periodic_lon_separation
  split_ifs with hgt hlt
  · refine ⟨⟨0, ?_⟩, ⟨-1, ?_⟩⟩ <;>
      (rw [abs_le]; push_cast; constructor <;> linarith)
  · refine ⟨⟨0, ?_⟩, ⟨1, ?_⟩⟩ <;>
      (rw [abs_le]; push_cast; constructor <;> linarith)
  · refine ⟨⟨0, ?_⟩, ⟨0, ?_⟩⟩ <;>
      (rw [abs_le]; push_cast; constructor <;> linarith)

/-- Witness for `mid_lon_plate_carree_near_endpoints` on a segment crossing
the 0/360 meridian (from longitude 10 to longitude 350). -/
theorem mid_lon_plate_carree_near_endpoints_witness :
    ((0 : ℚ) ≤ 10 ∧ (10 : ℚ) < 360 ∧ (0 : ℚ) ≤ 350 ∧ (350 : ℚ) < 360) ∧
    ((∃ k : ℤ, |mid_lon_plate_carree 10 350 - 10 - 360 * k| ≤ 90) ∧
     (∃ k : ℤ, |mid_lon_plate_carree 10 350 - 350 - 360 * k| ≤ 90)) :=
  ⟨⟨by decide, by decide, by decide, by decide⟩,
    mid_lon_plate_carree_near_endpoints 10 350 (by decide) (by decide)
      (by decide) (by decide)⟩

lemma order_endpoints_length (segment : List Segment) :
    (order_endpoints_sphere segment).length = segment.length :=
  List.length_map _ _

lemma order_endpoints_getD (segment : List Segment) (i : ℕ)
    (h : i < segment.length) :
    (order_endpoints_sphere segment).getD i default
      = order_endpoint_row (segment.getD i default) := by
  rw [List.getD_eq_getElem _ _ (by rwa [order_endpoints_length]),
    List.getD_eq_getElem _ _ h]
  simp [order_endpoints_sphere]

/-- C8: `order_endpoints_sphere` returns a copy of the segment table in which
a row whose Cartesian endpoints have a cross product with negative z component
gets exactly its `lon1, lat1, lon2, lat2` fields exchanged with
`lon2, lat2, lon1, lat1`; every other row is returned unchanged, and in every
row all fields other than the four lon/lat endpoint fields — in particular
the Cartesian coordinates `x1, y1, z1, x2, y2, z2` — equal those of the input
row.  The input table is not modified: the source writes only into its deep
copy, so the embedding is a pure function of the input list, whose length is
also preserved. -/
theorem order_endpoints_sphere_spec (segment : List Segment) (i : ℕ)
    (h : i < segment.length) :
    (order_endpoints_sphere segment).length = segment.length ∧
    ((endpoint_cross_z (segment.getD i default) < 0 →
        ((order_endpoints_sphere segment).getD i default).lon1
            = (segment.getD i default).lon2 ∧
        ((order_endpoints_sphere segment).getD i default).lat1
            = (segment.getD i default).lat2 ∧
        ((order_endpoints_sphere segment).getD i default).lon2
            = (segment.getD i default).lon1 ∧
        ((order_endpoints_sphere segment).getD i default).lat2
            = (segment.getD i default).lat1) ∧
      (¬ endpoint_cross_z (segment.getD i default) < 0 →
        (order_endpoints_sphere segment).getD i default = segment.getD i default) ∧
      ((order_endpoints_sphere segment).getD i default).x1 = (segment.getD i default).x1 ∧
      ((order_endpoints_sphere segment).getD i default).y1 = (segment.getD i default).y1 ∧
      ((order_endpoints_sphere segment).getD i default).z1 = (segment.getD i default).z1 ∧
      ((order_endpoints_sphere segment).getD i default).x2 = (segment.getD i default).x2 ∧
      ((order_endpoints_sphere segment).getD i default).y2 = (segment.getD i default).y2 ∧
      ((order_endpoints_sphere segment).getD i default).z2 = (segment.getD i default).z2 ∧
      ((order_endpoints_sphere segment).getD i default).locking_depth
          = (segment.getD i default).locking_depth ∧
      ((order_endpoints_sphere segment).getD i default).locking_depth_flag
          = (segment.getD i default).locking_depth_flag ∧
      ((order_endpoints_sphere segment).getD i default).other
          = (segment.getD i default).other) := by
  refine ⟨order_endpoints_length segment, ?_⟩
  rw [order_endpoints_getD segment i h]
  unfold order_endpoint_row
  split_ifs with hc
  · refine ⟨fun _ => ⟨rfl, rfl, rfl, rfl⟩, fun hnc => absurd hc hnc, ?_⟩
    exact ⟨rfl, rfl, rfl, rfl, rfl, rfl, rfl, rfl, rfl⟩
  · refine ⟨fun hcc => absurd hcc hc, fun _ => rfl, ?_⟩
    exact ⟨rfl, rfl, rfl, rfl, rfl, rfl, rfl, rfl, rfl⟩

/-- Witness for `order_endpoints_sphere_spec` on a one-row table whose row
needs swapping. -/
theorem order_endpoints_sphere_spec_witness :
    0 < [swappedSegment].length ∧
    ((order_endpoints_sphere [swappedSegment]).length = [swappedSegment].length ∧
    ((endpoint_cross_z ([swappedSegment].getD 0 default) < 0 →
        ((order_endpoints_sphere [swappedSegment]).getD 0 default).lon1
            = ([swappedSegment].getD 0 default).lon2 ∧
        ((order_endpoints_sphere [swappedSegment]).getD 0 default).lat1
            = ([swappedSegment].getD 0 default).lat2 ∧
        ((order_endpoints_sphere [swappedSegment]).getD 0 default).lon2
            = ([swappedSegment].getD 0 default).lon1 ∧
        ((order_endpoints_sphere [swappedSegment]).getD 0 default).lat2
            = ([swappedSegment].getD 0 default).lat1) ∧
      (¬ endpoint_cross_z ([swappedSegment].getD 0 default) < 0 →
        (order_endpoints_sphere [swappedSegment]).getD 0 default
            = [swappedSegment].getD 0 default) ∧
      ((order_endpoints_sphere [swappedSegment]).getD 0 default).x1
          = ([swappedSegment].getD 0 default).x1 ∧
      ((order_endpoints_sphere [swappedSegment]).getD 0 default).y1
          = ([swappedSegment].getD 0 default).y1 ∧
      ((order_endpoints_sphere [swappedSegment]).getD 0 default).z1
          = ([swappedSegment].getD 0 default).z1 ∧
      ((order_endpoints_sphere [swappedSegment]).getD 0 default).x2
          = ([swappedSegment].getD 0 default).x2 ∧
      ((order_endpoints_sphere [swappedSegment]).getD 0 default).y2
          = ([swappedSegment].getD 0 default).y2 ∧
      ((order_endpoints_sphere [swappedSegment]).getD 0 default).z2
          = ([swappedSegment].getD 0 default).z2 ∧
      ((order_endpoints_sphere [swappedSegment]).getD 0 default).locking_depth
          = ([swappedSegment].getD 0 default).locking_depth ∧
      ((order_endpoints_sphere [swappedSegment]).getD 0 default).locking_depth_flag
          = ([swappedSegment].getD 0 default).locking_depth_flag ∧
      ((order_endpoints_sphere [swappedSegment]).getD 0 default).other
          = ([swappedSegment].getD 0 default).other)) :=
  ⟨by decide, order_endpoints_sphere_spec [swappedSegment] 0 (by decide)⟩

lemma locking_depth_manager_length (segment : List Segment) (command : Command) :
    (locking_depth_manager segment command).length = segment.length :=
  List.length_map _ _

lemma locking_depth_manager_getD (segment : List Segment) (command : Command)
    (i : ℕ) (h : i < segment.length) :
    (locking_depth_manager segment command).getD i default
      = locking_depth_row command (segment.getD i default) := by
  rw [List.getD_eq_getElem _ _ (by rwa [locking_depth_manager_length]),
    List.getD_eq_getElem _ _ h]
  simp [locking_depth_manager]

lemma locking_depth_row_override (command : Command) (s : Segment)
    (hov : command.locking_depth_override_flag = "yes") :
    (locking_depth_row command s).locking_depth
      = command.locking_depth_override_value := by
  unfold locking_depth_row
  simp only [hov]
  split_ifs <;> rfl

lemma locking_depth_row_keep (command : Command) (s : Segment)
    (hov : command.locking_depth_override_flag ≠ "yes")
    (hf : s.locking_depth_flag = 0 ∨ s.locking_depth_flag = 1) :
    (locking_depth_row command s).locking_depth = s.locking_depth := by
  unfold locking_depth_row
  rcases hf with hf | hf <;> simp [hf, hov]

lemma locking_depth_row_flag (command : Command) (s : Segment)
    (hov : command.locking_depth_override_flag ≠ "yes") :
    (s.locking_depth_flag = 2 →
      (locking_depth_row command s).locking_depth = command.locking_depth_flag2) ∧
    (s.locking_depth_flag = 3 →
      (locking_depth_row command s).locking_depth = command.locking_depth_flag3) ∧
    (s.locking_depth_flag = 4 →
      (locking_depth_row command s).locking_depth = command.locking_depth_flag4) ∧
    (s.locking_depth_flag = 5 →
      (locking_depth_row command s).locking_depth = command.locking_depth_flag5) := by
  unfold locking_depth_row
  refine ⟨fun hf => ?_, fun hf => ?_, fun hf => ?_, fun hf => ?_⟩ <;>
    simp [hf, hov]

/-- C9: `locking_depth_manager` does not modify its input table (the source
writes only into a deep copy, so the embedding is a pure function returning
the copy, of the same length).  In the returned copy, when
`command.locking_depth_override_flag` is not `"yes"`, a row whose
`locking_depth_flag` is 0 or 1 keeps its original `locking_depth`, while rows
with flags 2-5 receive the corresponding command value; when the override
flag is `"yes"`, every row's `locking_depth` equals
`command.locking_depth_override_value` regardless of its flag. -/
theorem locking_depth_manager_spec (segment : List Segment) (command : Command)
    (i : ℕ) (h : i < segment.length) :
    (locking_depth_manager segment command).length = segment.length ∧
    (command.locking_depth_override_flag ≠ "yes" →
      (((segment.getD i default).locking_depth_flag = 0 ∨
          (segment.getD i default).locking_depth_flag = 1) →
        ((locking_depth_manager segment command).getD i default).locking_depth
          = (segment.getD i default).locking_depth) ∧
      ((segment.getD i default).locking_depth_flag = 2 →
        ((locking_depth_manager segment command).getD i default).locking_depth
          = command.locking_depth_flag2) ∧
      ((segment.getD i default).locking_depth_flag = 3 →
        ((locking_depth_manager segment command).getD i default).locking_depth
          = command.locking_depth_flag3) ∧
      ((segment.getD i default).locking_depth_flag = 4 →
        ((locking_depth_manager segment command).getD i default).locking_depth
          = command.locking_depth_flag4) ∧
      ((segment.getD i default).locking_depth_flag = 5 →
        ((locking_depth_manager segment command).getD i default).locking_depth
          = command.locking_depth_flag5)) ∧
    (command.locking_depth_override_flag = "yes" →
      ((locking_depth_manager segment command).getD i default).locking_depth
        = command.locking_depth_override_value) := by
  rw [locking_depth_manager_getD segment command i h]
  refine ⟨locking_depth_manager_length segment command, fun hov => ?_,
    fun hov => locking_depth_row_override command _ hov⟩
  obtain ⟨h2, h3, h4, h5⟩ := locking_depth_row_flag command (segment.getD i default) hov
  exact ⟨locking_depth_row_keep command _ hov, h2, h3, h4, h5⟩

/-- Witness for `locking_depth_manager_spec` on a one-row table (flag 2,
override off). -/
theorem locking_depth_manager_spec_witness :
    0 < [swappedSegment].length ∧
    ((locking_depth_manager [swappedSegment] exampleCommand).length
        = [swappedSegment].length ∧
    (exampleCommand.locking_depth_override_flag ≠ "yes" →
      ((([swappedSegment].getD 0 default).locking_depth_flag = 0 ∨
          ([swappedSegment].getD 0 default).locking_depth_flag = 1) →
        ((locking_depth_manager [swappedSegment] exampleCommand).getD 0 default).locking_depth
          = ([swappedSegment].getD 0 default).locking_depth) ∧
      (([swappedSegment].getD 0 default).locking_depth_flag = 2 →
        ((locking_depth_manager [swappedSegment] exampleCommand).getD 0 default).locking_depth
          = exampleCommand.locking_depth_flag2) ∧
      (([swappedSegment].getD 0 default).locking_depth_flag = 3 →
        ((locking_depth_manager [swappedSegment] exampleCommand).getD 0 default).locking_depth
          = exampleCommand.locking_depth_flag3) ∧
      (([swappedSegment].getD 0 default).locking_depth_flag = 4 →
        ((locking_depth_manager [swappedSegment] exampleCommand).getD 0 default).locking_depth
          = exampleCommand.locking_depth_flag4) ∧
      (([swappedSegment].getD 0 default).locking_depth_flag = 5 →
        ((locking_depth_manager [swappedSegment] exampleCommand).getD 0 default).locking_depth
          = exampleCommand.locking_depth_flag5)) ∧
    (exampleCommand.locking_depth_override_flag = "yes" →
      ((locking_depth_manager [swappedSegment] exampleCommand).getD 0 default).locking_depth
        = exampleCommand.locking_depth_override_value)) :=
  ⟨by decide, locking_depth_manager_spec [swappedSegment] exampleCommand 0 (by decide)⟩

lemma west_labels_getD (labels : List (ℤ × ℤ)) (i : ℕ) (h : i < labels.length) :
    (west_labels labels).getD i 0 = (labels.getD i (0, 0)).1 := by
  rw [List.getD_eq_getElem _ _ (by simpa [west_labels] using h),
    List.getD_eq_getElem _ _ h]
  simp [west_labels]

lemma east_labels_getD (labels : List (ℤ × ℤ)) (i : ℕ) (h : i < labels.length) :
    (east_labels labels).getD i 0 = (labels.getD i (0, 0)).2 := by
  rw [List.getD_eq_getElem _ _ (by simpa [east_labels] using h),
    List.getD_eq_getElem _ _ h]
  simp [east_labels]

/-- The warning fires exactly when some segment index carries a negative
east or west label. -/
lemma prints_unprocessed_warning_iff (labels : List (ℤ × ℤ)) :
    prints_unprocessed_warning labels = true ↔
      ∃ i, i < labels.length ∧
        ((labels.getD i (0, 0)).1 < 0 ∨ (labels.getD i (0, 0)).2 < 0) := by
  unfold prints_unprocessed_warning unprocessed_indices
  rw [decide_eq_true_iff, List.length_pos_iff_exists_mem]
  constructor
  · rintro ⟨i, hi⟩
    rw [List.mem_filter, List.mem_range] at hi
    have := of_decide_eq_true hi.2
    exact ⟨i, hi.1, this.symm⟩
  · rintro ⟨i, hlt, hp⟩
    refine ⟨i, ?_⟩
    rw [List.mem_filter, List.mem_range]
    exact ⟨hlt, decide_eq_true hp.symm⟩

lemma get_segment_labels_model_length (res : List (Option (ℕ × ℕ))) :
    (get_segment_labels_model res).length = res.length :=
  List.length_map _ _

lemma get_segment_labels_model_getD (res : List (Option (ℕ × ℕ))) (i : ℕ)
    (h : i < res.length) :
    (get_segment_labels_model res).getD i (0, 0)
      = (match res.getD i none with
          | some (w, e) => ((w : ℤ), (e : ℤ))
          | none => (-1, -1)) := by
  rw [List.getD_eq_getElem _ _ (by rwa [get_segment_labels_model_length]),
    List.getD_eq_getElem _ _ h]
  simp [get_segment_labels_model]

/-- C1: in `assign_block_labels`, a segment whose west or east side the
closure could not resolve carries the negative sentinel in the `west_labels`
and `east_labels` columns; the user-visible diagnostic is printed if and only
if at least one segment has a negative `west_labels` or `east_labels` value;
and the label columns are assigned for every segment (each resolved segment
keeps its genuine label pair) — the function is total, so no exception is
raised. -/
theorem assign_block_labels_unresolved_diagnostic (res : List (Option (ℕ × ℕ))) :
    (prints_unprocessed_warning (get_segment_labels_model res) = true ↔
      ∃ i, i < res.length ∧
        ((west_labels (get_segment_labels_model res)).getD i 0 < 0 ∨
         (east_labels (get_segment_labels_model res)).getD i 0 < 0)) ∧
    (∀ i, i < res.length → res.getD i none = none →
      (west_labels (get_segment_labels_model res)).getD i 0 < 0 ∧
      (east_labels (get_segment_labels_model res)).getD i 0 < 0) ∧
    (west_labels (get_segment_labels_model res)).length = res.length ∧
    (east_labels (get_segment_labels_model res)).length = res.length ∧
    (∀ i, i < res.length → ∀ w e : ℕ, res.getD i none = some (w, e) →
      (west_labels (get_segment_labels_model res)).getD i 0 = (w : ℤ) ∧
      (east_labels (get_segment_labels_model res)).getD i 0 = (e : ℤ)) := by
  have hlen := get_segment_labels_model_length res
  refine ⟨?_, ?_, ?_, ?_, ?_⟩
  · rw [prints_unprocessed_warning_iff]
    constructor
    · rintro ⟨i, hi, hp⟩
      rw [hlen] at hi
      refine ⟨i, hi, ?_⟩
      rw [west_labels_getD _ _ (by rwa [hlen]), east_labels_getD _ _ (by rwa [hlen])]
      exact hp
    · rintro ⟨i, hi, hp⟩
      refine ⟨i, by rwa [hlen], ?_⟩
      rw [west_labels_getD _ _ (by rwa [hlen]), east_labels_getD _ _ (by rwa [hlen])] at hp
      exact hp
  · intro i hi hnone
    rw [west_labels_getD _ _ (by rwa [hlen]), east_labels_getD _ _ (by rwa [hlen]),
      get_segment_labels_model_getD res i hi, hnone]
    exact ⟨by norm_num, by norm_num⟩
  · rw [west_labels, List.length_map, hlen]
  · rw [east_labels, List.length_map, hlen]
  · intro i hi w e hsome
    rw [west_labels_getD _ _ (by rwa [hlen]), east_labels_getD _ _ (by rwa [hlen]),
      get_segment_labels_model_getD res i hi, hsome]
    exact ⟨rfl, rfl⟩

lemma area_plate_carree_column_length (n_blocks : ℕ) (polys : List PolyVerts) :
    (area_plate_carree_column n_blocks polys).length = n_blocks := by
  rw [area_plate_carree_column, List.length_map, List.length_range]

lemma area_plate_carree_column_getD (n_blocks : ℕ) (polys : List PolyVerts)
    (i : ℕ) (h : i < n_blocks) :
    (area_plate_carree_column n_blocks polys).getD i 0
      = if h2 : i < polys.length then poly_area (polys.get ⟨i, h2⟩) else -1 := by
  rw [List.getD_eq_getElem _ _ (by rwa [area_plate_carree_column_length])]
  simp [area_plate_carree_column]

/-- C6: the `area_plate_carree` value stored for each of the first
`n_polygons` block rows is the absolute value of the standard signed
shoelace sum of that polygon's vertex ring — in particular it is
nonnegative — while every block row beyond `n_polygons` keeps the `-1`
initialization value. -/
theorem area_plate_carree_unsigned (n_blocks : ℕ) (polys : List PolyVerts)
    (i : ℕ) (h : i < n_blocks) :
    (area_plate_carree_column n_blocks polys).length = n_blocks ∧
    (∀ h2 : i < polys.length,
      (area_plate_carree_column n_blocks polys).getD i 0
        = |signed_shoelace_area (polys.get ⟨i, h2⟩).2.1 (polys.get ⟨i, h2⟩).2.2| ∧
      0 ≤ (area_plate_carree_column n_blocks polys).getD i 0) ∧
    (polys.length ≤ i →
      (area_plate_carree_column n_blocks polys).getD i 0 = -1) := by
  refine ⟨area_plate_carree_column_length n_blocks polys, ?_, ?_⟩
  · intro h2
    rw [area_plate_carree_column_getD n_blocks polys i h, dif_pos h2]
    constructor
    · rw [poly_area, polygon_area, signed_shoelace_area, abs_div]
      norm_num
      ring
    · rw [poly_area, polygon_area]
      positivity
  · intro hge
    rw [area_plate_carree_column_getD n_blocks polys i h,
      dif_neg (by omega : ¬ i < polys.length)]

/-- Witness for `area_plate_carree_unsigned`: two block rows, one traced
polygon (the unit square), checked at row 0. -/
theorem area_plate_carree_unsigned_witness :
    0 < 2 ∧
    ((area_plate_carree_column 2 [unitSquarePoly]).length = 2 ∧
    (∀ h2 : 0 < [unitSquarePoly].length,
      (area_plate_carree_column 2 [unitSquarePoly]).getD 0 0
        = |signed_shoelace_area ([unitSquarePoly].get ⟨0, h2⟩).2.1
            ([unitSquarePoly].get ⟨0, h2⟩).2.2| ∧
      0 ≤ (area_plate_carree_column 2 [unitSquarePoly]).getD 0 0) ∧
    ([unitSquarePoly].length ≤ 0 →
      (area_plate_carree_column 2 [unitSquarePoly]).getD 0 0 = -1)) :=
  ⟨by decide, area_plate_carree_unsigned 2 [unitSquarePoly] 0 (by decide)⟩

/-- Forward trace: from half-edge `2*(n-k)` with at least `k` fuel, the walk
visits the forward half-edges of segments `n-k, n-k+1, …, n-1` and stops on
returning to the start `0`. -/
lemma traceLoop_forward (n : ℕ) : ∀ k, 1 ≤ k → k ≤ n → ∀ fuel, k ≤ fuel →
    traceLoop n 0 fuel (2 * (n - k))
      = (List.range k).map (fun j => 2 * (n - k + j)) := by
  intro k
  induction k with
  | zero => omega
  | succ k ih =>
    intro h1 h2 fuel h3
    obtain ⟨f, rfl⟩ : ∃ f, fuel = f + 1 := ⟨fuel - 1, by omega⟩
    simp only [traceLoop]
    rcases Nat.eq_zero_or_pos k with hk | hk
    · subst hk
      have hnext : nextHE n (2 * (n - 1)) = 0 := by
        unfold nextHE
        rw [if_pos (by omega)]
        have hd : 2 * (n - 1) / 2 = n - 1 := by omega
        rw [hd, show n - 1 + 1 = n from by omega, Nat.mod_self, Nat.mul_zero]
      rw [hnext, if_pos rfl]
      simp [List.range_succ]
    · have hnext : nextHE n (2 * (n - (k + 1))) = 2 * (n - k) := by
        unfold nextHE
        rw [if_pos (by omega)]
        have hd : 2 * (n - (k + 1)) / 2 = n - (k + 1) := by omega
        rw [hd, show n - (k + 1) + 1 = n - k from by omega,
          Nat.mod_eq_of_lt (by omega)]
      rw [hnext, if_neg (by omega), ih hk (by omega) f (by omega)]
      rw [List.range_succ_eq_map]
      simp only [List.map_cons, List.map_map]
      refine congrArg₂ _ (by omega) ?_
      refine List.map_congr_left (fun j _ => ?_)
      simp only [Function.comp_apply]
      omega

/-- Backward trace: from half-edge `2*k + 1` with at least `k` fuel, the walk
visits the backward half-edges of segments `k, k-1, …, 1` and stops on
returning to the start `1`. -/
lemma traceLoop_backward (n : ℕ) : ∀ k, 1 ≤ k → k ≤ n - 1 → ∀ fuel, k ≤ fuel →
    traceLoop n 1 fuel (2 * k + 1)
      = (List.range k).map (fun j => 2 * (k - j) + 1) := by
  intro k
  induction k with
  | zero => omega
  | succ k ih =>
    intro h1 h2 fuel h3
    obtain ⟨f, rfl⟩ : ∃ f, fuel = f + 1 := ⟨fuel - 1, by omega⟩
    simp only [traceLoop]
    rcases Nat.eq_zero_or_pos k with hk | hk
    · subst hk
      have hnext : nextHE n (2 * 1 + 1) = 1 := by
        unfold nextHE
        rw [if_neg (by omega)]
        have hd : (2 * 1 + 1) / 2 = 1 := by omega
        rw [hd, show 1 + (n - 1) = n from by omega, Nat.mod_self]
      rw [hnext, if_pos rfl]
      simp [List.range_succ]
    · have hnext : nextHE n (2 * (k + 1) + 1) = 2 * k + 1 := by
        unfold nextHE
        rw [if_neg (by omega)]
        have hd : (2 * (k + 1) + 1) / 2 = k + 1 := by omega
        rw [hd, show k + 1 + (n - 1) = k + n from by omega,
          Nat.add_mod_right k n, Nat.mod_eq_of_lt (by omega)]
      rw [hnext, if_neg (by omega), ih hk (by omega) f (by omega)]
      rw [List.range_succ_eq_map]
      simp only [List.map_cons, List.map_map]
      refine congrArg₂ _ (by omega) ?_
      refine List.map_congr_left (fun j _ => ?_)
      simp only [Function.comp_apply]
      omega

lemma traceFrom_zero (n : ℕ) (h : 1 ≤ n) :
    traceFrom n 0 = (List.range n).map (fun j => 2 * j) := by
  have h0 := traceLoop_forward n n h le_rfl (2 * n) (by omega)
  rw [show 2 * (n - n) = 0 from by omega] at h0
  rw [traceFrom, h0]
  refine List.map_congr_left (fun j _ => by omega)

lemma traceFrom_one (n : ℕ) (h : 2 ≤ n) :
    traceFrom n 1
      = 1 :: (List.range (n - 1)).map (fun j => 2 * (n - 1 - j) + 1) := by
  rw [traceFrom]
  obtain ⟨f, hf⟩ : ∃ f, 2 * n = f + 1 := ⟨2 * n - 1, by omega⟩
  rw [hf]
  simp only [traceLoop]
  have hnext : nextHE n 1 = 2 * (n - 1) + 1 := by
    unfold nextHE
    rw [if_neg (by omega)]
    have hd : (1 : ℕ) / 2 = 0 := by omega
    rw [hd, Nat.zero_add, Nat.mod_eq_of_lt (by omega)]
  rw [hnext, if_neg (by omega),
    traceLoop_backward n (n - 1) (by omega) le_rfl f (by omega)]

lemma mem_traceFrom_zero (n e : ℕ) (hn : 1 ≤ n) (he : e < 2 * n)
    (hpar : e % 2 = 0) : e ∈ traceFrom n 0 := by
  rw [traceFrom_zero n hn, List.mem_map]
  exact ⟨e / 2, List.mem_range.mpr (by omega), by omega⟩

lemma mem_traceFrom_one (n e : ℕ) (hn : 2 ≤ n) (he : e < 2 * n)
    (hpar : e % 2 = 1) : e ∈ traceFrom n 1 := by
  rw [traceFrom_one n hn]
  rcases Nat.eq_or_lt_of_le (by omega : 1 ≤ e) with h1 | h1
  · rw [← h1]
    exact List.mem_cons_self _ _
  · refine List.mem_cons_of_mem _ ?_
    rw [List.mem_map]
    refine ⟨n - 1 - e / 2, List.mem_range.mpr (by omega), by omega⟩

lemma foldl_closureStep_absorbed (n : ℕ) :
    ∀ (l : List ℕ) (st : List (List ℕ)), (∀ e ∈ l, e ∈ st.flatten) →
      l.foldl (closureStep n) st = st := by
  intro l
  induction l with
  | nil => intro st _; rfl
  | cons e l ih =>
    intro st h
    rw [List.foldl_cons, closureStep, if_pos (h e (List.mem_cons_self e l))]
    exact ih st (fun x hx => h x (List.mem_cons_of_mem e hx))

/-- On the single closed loop the tracer produces exactly the two polygons
traced from half-edges 0 and 1 (the interior and the exterior face). -/
lemma run_block_closure_model_eq (n : ℕ) (h : 2 ≤ n) :
    run_block_closure_model n = [traceFrom n 0, traceFrom n 1] := by
  obtain ⟨m, hm⟩ : ∃ m, 2 * n = m + 2 := ⟨2 * n - 2, by omega⟩
  have hsplit : List.range (2 * n) = 0 :: 1 :: List.range' 2 m := by
    rw [List.range_eq_range', hm, List.range'_succ, List.range'_succ]
  rw [run_block_closure_model, hsplit, List.foldl_cons, List.foldl_cons]
  have hstep0 : closureStep n [] 0 = [traceFrom n 0] := by
    rw [closureStep, if_neg (by simp)]
    rfl
  have hstep1 : closureStep n [traceFrom n 0] 1 = [traceFrom n 0, traceFrom n 1] := by
    rw [closureStep, if_neg ?_]
    · rfl
    · intro hmem
      simp only [List.flatten, List.append_nil] at hmem
      rw [traceFrom_zero n (by omega), List.mem_map] at hmem
      obtain ⟨j, _, hj⟩ := hmem
      omega
  rw [hstep0, hstep1]
  refine foldl_closureStep_absorbed n _ _ (fun e hmem => ?_)
  have hrange : 2 ≤ e ∧ e < 2 * n := by
    rw [List.mem_range'_1] at hmem
    omega
  simp only [List.flatten, List.append_nil, List.mem_append]
  rcases Nat.even_or_odd e with hpar | hpar
  · exact Or.inl (mem_traceFrom_zero n e (by omega) hrange.2
      (Nat.even_iff.mp hpar))
  · exact Or.inr (mem_traceFrom_one n e h hrange.2 (Nat.odd_iff.mp hpar))

/-- C2: on every well-formed single-closed-loop segment set (the canonical
loop with `n ≥ 3` segments), the tracer invoked by `assign_block_labels`
produces exactly one interior polygon (two traced faces, one of which is the
exterior), leaves no half-edge unresolved, and places both half-edges of
every segment in a traced polygon — so no segment gets a negative west or
east label. -/
theorem run_block_closure_single_loop (n : ℕ) (h : 3 ≤ n) :
    n_interior_polygons n = 1 ∧
    unresolved_half_edges n = [] ∧
    ∀ i, i < n → 2 * i ∈ (run_block_closure_model n).flatten ∧
      2 * i + 1 ∈ (run_block_closure_model n).flatten := by
  have heq := run_block_closure_model_eq n (by omega)
  have hmem : ∀ e, e < 2 * n → e ∈ (run_block_closure_model n).flatten := by
    intro e he
    rw [heq]
    simp only [List.flatten, List.append_nil, List.mem_append]
    rcases Nat.even_or_odd e with hpar | hpar
    · exact Or.inl (mem_traceFrom_zero n e (by omega) he (Nat.even_iff.mp hpar))
    · exact Or.inr (mem_traceFrom_one n e (by omega) he (Nat.odd_iff.mp hpar))
  refine ⟨?_, ?_, ?_⟩
  · rw [n_interior_polygons, n_polygons_model, heq]
    rfl
  · rw [unresolved_half_edges, List.filter_eq_nil_iff]
    intro e hmem'
    rw [List.mem_range] at hmem'
    simp only [decide_eq_true_eq, not_not]
    exact hmem e hmem'
  · intro i hi
    exact ⟨hmem _ (by omega), hmem _ (by omega)⟩

/-- Witness for `run_block_closure_single_loop` on the four-segment loop. -/
theorem run_block_closure_single_loop_witness :
    3 ≤ 4 ∧
    (n_interior_polygons 4 = 1 ∧
    unresolved_half_edges 4 = [] ∧
    ∀ i, i < 4 → 2 * i ∈ (run_block_closure_model 4).flatten ∧
      2 * i + 1 ∈ (run_block_closure_model 4).flatten) :=
  ⟨by decide, run_block_closure_single_loop 4 (by decide)⟩

/-- The source loop writes the rows of segment `i` only during iteration `i`
(row ranges of distinct segments are disjoint), so the folded operator has
the closed form `slip_partials_entry` on the written rows and stays zero
elsewhere. -/
lemma foldl_slip_partials (T : TrigModel) (segment : ℕ → SlipSegment) :
    ∀ m, (List.range m).foldl (slip_partials_step T segment) (fun _ _ => 0)
      = fun r c => if r < 3 * m then slip_partials_entry T segment (r / 3) r c
          else 0 := by
  intro m
  induction m with
  | zero =>
    funext r c
    rw [List.range_zero, List.foldl_nil, if_neg (by omega)]
  | succ m ih =>
    rw [List.range_succ, List.foldl_append, List.foldl_cons, List.foldl_nil, ih]
    funext r c
    simp only [slip_partials_step, write_block]
    by_cases hrow : 3 * m ≤ r ∧ r < 3 * m + 3
    · have hdiv : r / 3 = m := by omega
      have hmod : r % 3 = r - 3 * m := by omega
      rw [if_pos (show r < 3 * (m + 1) by omega), slip_partials_entry, hdiv, hmod]
      by_cases hw : 3 * (segment m).west_labels ≤ c ∧
          c < 3 * (segment m).west_labels + 3
      · rw [if_pos ⟨hrow.1, hrow.2, hw.1, hw.2⟩, if_pos hw]
      · rw [if_neg (fun hc => hw ⟨hc.2.2.1, hc.2.2.2⟩), if_neg hw]
        by_cases he : 3 * (segment m).east_labels ≤ c ∧
            c < 3 * (segment m).east_labels + 3
        · rw [if_pos ⟨hrow.1, hrow.2, he.1, he.2⟩, if_pos he]
        · rw [if_neg (fun hc => he ⟨hc.2.2.1, hc.2.2.2⟩), if_neg he,
            if_neg (show ¬ r < 3 * m by omega)]
    · rw [if_neg (fun hc => hrow ⟨hc.1, hc.2.1⟩),
        if_neg (fun hc => hrow ⟨hc.1, hc.2.1⟩)]
      by_cases hlt : r < 3 * m
      · rw [if_pos hlt, if_pos (show r < 3 * (m + 1) by omega)]
      · rw [if_neg hlt, if_neg (show ¬ r < 3 * (m + 1) by omega)]

lemma get_fault_slip_rate_partials_entry (T : TrigModel) (n_segments : ℕ)
    (segment : ℕ → SlipSegment) (i : ℕ) (hi : i < n_segments)
    (r : ℕ) (hr : r < 3) (c : ℕ) :
    get_fault_slip_rate_partials T n_segments segment (3 * i + r) c
      = slip_partials_entry T segment i (3 * i + r) c := by
  simp only [get_fault_slip_rate_partials, foldl_slip_partials]
  rw [if_pos (show 3 * i + r < 3 * n_segments by omega),
    show (3 * i + r) / 3 = i by omega]

lemma at3_eq (B : Fin 3 → Fin 3 → ℚ) (r c : ℕ) (hr : r < 3) (hc : c < 3) :
    at3 B r c = B ⟨r, hr⟩ ⟨c, hc⟩ := by
  rw [at3, dif_pos (⟨hr, hc⟩ : r < 3 ∧ c < 3)]

/-- C7: for a segment `i` with valid, distinct west and east labels, rows
`3*i .. 3*i+2` of the slip-rate operator hold the segment's 3x3 slip-rate
matrix in the east-label block columns and exactly its negation in the
west-label block columns, with every other entry of those rows zero;
consequently the predicted slip rate of the segment depends only on the
difference between the east and west blocks' rotation vectors. -/
theorem get_fault_slip_rate_partials_blocks (T : TrigModel)
    (n_segments n_blocks : ℕ) (segment : ℕ → SlipSegment) (i : ℕ)
    (hi : i < n_segments)
    (hw : (segment i).west_labels < n_blocks)
    (he : (segment i).east_labels < n_blocks)
    (hne : (segment i).west_labels ≠ (segment i).east_labels)
    (r : ℕ) (hr : r < 3) :
    (∀ k : Fin 3,
      get_fault_slip_rate_partials T n_segments segment (3 * i + r)
          (3 * (segment i).east_labels + k)
        = slip_rate_matrix T (segment i) ⟨r, hr⟩ k) ∧
    (∀ k : Fin 3,
      get_fault_slip_rate_partials T n_segments segment (3 * i + r)
          (3 * (segment i).west_labels + k)
        = -(slip_rate_matrix T (segment i) ⟨r, hr⟩ k)) ∧
    (∀ c : ℕ,
      (c < 3 * (segment i).east_labels ∨ 3 * (segment i).east_labels + 3 ≤ c) →
      (c < 3 * (segment i).west_labels ∨ 3 * (segment i).west_labels + 3 ≤ c) →
      get_fault_slip_rate_partials T n_segments segment (3 * i + r) c = 0) ∧
    (∀ ω : ℕ → Fin 3 → ℚ,
      ∑ b ∈ Finset.range n_blocks, ∑ k : Fin 3,
          get_fault_slip_rate_partials T n_segments segment (3 * i + r)
              (3 * b + k) * ω b k
        = ∑ k : Fin 3, slip_rate_matrix T (segment i) ⟨r, hr⟩ k *
            (ω (segment i).east_labels k - ω (segment i).west_labels k)) := by
  have hmod : (3 * i + r) % 3 = r := by omega
  have heast : ∀ k : Fin 3,
      get_fault_slip_rate_partials T n_segments segment (3 * i + r)
          (3 * (segment i).east_labels + k)
        = slip_rate_matrix T (segment i) ⟨r, hr⟩ k := by
    intro k
    rw [get_fault_slip_rate_partials_entry T n_segments segment i hi r hr _,
      slip_partials_entry, if_neg (fun hc => hne (by omega)),
      if_pos ⟨by omega, by omega⟩, hmod,
      show 3 * (segment i).east_labels + ↑k - 3 * (segment i).east_labels
        = (k : ℕ) from by omega,
      at3_eq _ _ _ hr k.isLt]
  have hwest : ∀ k : Fin 3,
      get_fault_slip_rate_partials T n_segments segment (3 * i + r)
          (3 * (segment i).west_labels + k)
        = -(slip_rate_matrix T (segment i) ⟨r, hr⟩ k) := by
    intro k
    rw [get_fault_slip_rate_partials_entry T n_segments segment i hi r hr _,
      slip_partials_entry, if_pos ⟨by omega, by omega⟩, hmod,
      show 3 * (segment i).west_labels + ↑k - 3 * (segment i).west_labels
        = (k : ℕ) from by omega,
      at3_eq _ _ _ hr k.isLt]
  have hzero : ∀ c : ℕ,
      (c < 3 * (segment i).east_labels ∨ 3 * (segment i).east_labels + 3 ≤ c) →
      (c < 3 * (segment i).west_labels ∨ 3 * (segment i).west_labels + 3 ≤ c) →
      get_fault_slip_rate_partials T n_segments segment (3 * i + r) c = 0 := by
    intro c hce hcw
    rw [get_fault_slip_rate_partials_entry T n_segments segment i hi r hr _,
      slip_partials_entry, if_neg (by omega), if_neg (by omega)]
  refine ⟨heast, hwest, hzero, ?_⟩
  intro ω
  have hsub : ({(segment i).east_labels, (segment i).west_labels} : Finset ℕ)
      ⊆ Finset.range n_blocks := by
    intro b hb
    rw [Finset.mem_insert, Finset.mem_singleton] at hb
    rw [Finset.mem_range]
    rcases hb with hb | hb <;> omega
  rw [← Finset.sum_subset hsub ?hout]
  case hout =>
    intro b hb hbnot
    rw [Finset.mem_insert, Finset.mem_singleton] at hbnot
    push_neg at hbnot
    refine Finset.sum_eq_zero (fun k _ => ?_)
    rw [hzero (3 * b + k) (by omega) (by omega), zero_mul]
  rw [Finset.sum_pair (fun hc => hne hc.symm)]
  have h1 : ∑ k : Fin 3,
      get_fault_slip_rate_partials T n_segments segment (3 * i + r)
        (3 * (segment i).east_labels + k) * ω (segment i).east_labels k
      = ∑ k : Fin 3, slip_rate_matrix T (segment i) ⟨r, hr⟩ k *
          ω (segment i).east_labels k :=
    Finset.sum_congr rfl (fun k _ => by rw [heast k])
  have h2 : ∑ k : Fin 3,
      get_fault_slip_rate_partials T n_segments segment (3 * i + r)
        (3 * (segment i).west_labels + k) * ω (segment i).west_labels k
      = ∑ k : Fin 3, -(slip_rate_matrix T (segment i) ⟨r, hr⟩ k *
          ω (segment i).west_labels k) :=
    Finset.sum_congr rfl (fun k _ => by rw [hwest k]; ring)
  rw [h1, h2]
  rw [← Finset.sum_add_distrib]
  refine Finset.sum_congr rfl (fun k _ => by ring)

/-- Witness for `get_fault_slip_rate_partials_blocks`: one segment separating
block 0 (west) from block 1 (east), with simple numeric primitives. -/
theorem get_fault_slip_rate_partials_blocks_witness :
    ((0 : ℕ) < 1 ∧ exampleSlipSegment.west_labels < 2 ∧
      exampleSlipSegment.east_labels < 2 ∧
      exampleSlipSegment.west_labels ≠ exampleSlipSegment.east_labels ∧
      (0 : ℕ) < 3) ∧
    ((∀ k : Fin 3,
      get_fault_slip_rate_partials exampleTrig 1 (fun _ => exampleSlipSegment)
          (3 * 0 + 0) (3 * exampleSlipSegment.east_labels + k)
        = slip_rate_matrix exampleTrig exampleSlipSegment ⟨0, by decide⟩ k) ∧
    (∀ k : Fin 3,
      get_fault_slip_rate_partials exampleTrig 1 (fun _ => exampleSlipSegment)
          (3 * 0 + 0) (3 * exampleSlipSegment.west_labels + k)
        = -(slip_rate_matrix exampleTrig exampleSlipSegment ⟨0, by decide⟩ k)) ∧
    (∀ c : ℕ,
      (c < 3 * exampleSlipSegment.east_labels ∨
        3 * exampleSlipSegment.east_labels + 3 ≤ c) →
      (c < 3 * exampleSlipSegment.west_labels ∨
        3 * exampleSlipSegment.west_labels + 3 ≤ c) →
      get_fault_slip_rate_partials exampleTrig 1 (fun _ => exampleSlipSegment)
          (3 * 0 + 0) c = 0) ∧
    (∀ ω : ℕ → Fin 3 → ℚ,
      ∑ b ∈ Finset.range 2, ∑ k : Fin 3,
          get_fault_slip_rate_partials exampleTrig 1 (fun _ => exampleSlipSegment)
              (3 * 0 + 0) (3 * b + k) * ω b k
        = ∑ k : Fin 3, slip_rate_matrix exampleTrig exampleSlipSegment
            ⟨0, by decide⟩ k *
            (ω exampleSlipSegment.east_labels k -
              ω exampleSlipSegment.west_labels k))) :=
  ⟨⟨by decide, by decide, by decide, by decide, by decide⟩,
    get_fault_slip_rate_partials_blocks exampleTrig 1 2
      (fun _ => exampleSlipSegment) 0 (by decide) (by decide) (by decide)
      (by decide) 0 (by decide)⟩

end Celeri
